import Mathlib

/-!
Verification of the handle-inference core of `organize_by_handle.py`.

The embedding translates the Python functions `has_letter`,
`looks_like_camera_prefix`, `looks_like_id_or_hash`,
`take_leading_handle_token_preserve` and `infer_handle`, together with the
three regular expressions `RE_AT_ANY`, `RE_TRAILING` and
`RE_NUMERIC_DATE_TAIL`, into executable Lean functions over `List Char`
(with `String` wrappers keeping the source names).

Character-class notes.  Python's `str.isalpha`, `str.isdigit`, `\w`, `\d`
and `str.lower` are full-Unicode; the model covers the ASCII range plus the
katakana letter ツ, which is the only non-ASCII character the source text
mentions.  Python's `.` in a regex does not match a newline and `$` also
matches just before a trailing newline; the model treats the patterns as
anchored at the true end of the string, which is exact for newline-free
inputs.
-/

/-- Python's `c.isalpha()` for one character (ASCII letters plus ツ; see the
character-class notes above). -/
def pyIsAlpha (c : Char) : Bool := c.isAlpha || c = 'ツ'

/-- Python's `c.isdigit()` for one character (ASCII decimal digits). -/
def pyIsDigit (c : Char) : Bool := c.isDigit

/-- Python's `c.lower()` for one character (ASCII case map). -/
def pyLower (c : Char) : Char := c.toLower

/-- The whitespace characters stripped by Python's `str.strip()` and matched
by the regex class `\s` (ASCII part). -/
def pyIsSpace (c : Char) : Bool :=
  c = ' ' || c = '\t' || c = '\n' || c = '\r' || c = Char.ofNat 11 || c = Char.ofNat 12

/-- The regex class `\w`: letters, digits and the underscore. -/
def isWordChar (c : Char) : Bool := pyIsAlpha c || pyIsDigit c || c = '_'

/-- The regex class `[\w._]` used by `RE_AT_ANY` and `RE_TRAILING`
(`_` is already in `\w`). -/
def isWordDot (c : Char) : Bool := isWordChar c || c = '.'

/-- Python's `s.lstrip(chars)`: drop characters of the set from the front. -/
def stripLeadingBy (f : Char → Bool) (l : List Char) : List Char := l.dropWhile f

/-- Python's `s.rstrip(chars)`: drop characters of the set from the back. -/
def stripTrailingBy (f : Char → Bool) (l : List Char) : List Char :=
  (l.reverse.dropWhile f).reverse

/-- Python's `s.strip(chars)`: drop characters of the set from both ends. -/
def stripBothBy (f : Char → Bool) (l : List Char) : List Char :=
  stripTrailingBy f (stripLeadingBy f l)

/-- Python's `s.strip()` (whitespace strip). -/
def pyStripWs (l : List Char) : List Char := stripBothBy pyIsSpace l

/-- `CAMERA_PREFIXES` from the source. -/
def CAMERA_PREFIXES : List (List Char) :=
  ["img".data, "dsc".data, "pxl".data, "vid".data, "photo".data,
   "screenshot".data, "whatsapp".data, "signal".data, "snapchat".data,
   "instagram".data, "insta".data, "fb".data, "telegram".data]

/-- `c = '.' or c = '_'`, the set stripped by `token.strip('._')` in
`looks_like_camera_prefix`. -/
def isDotUnderscore (c : Char) : Bool := c = '.' || c = '_'

/-- `has_letter` from the source: `any(c.isalpha() for c in s)`. -/
def hasLetterL (l : List Char) : Bool := l.any pyIsAlpha

/-- The loop body of `looks_like_camera_prefix` applied to the normalised
token `t = token.strip('._').lower()`: `t == p or t.startswith(p + '_') or
t.startswith(p + '-') or t.startswith(p + '.') or t.startswith(p + ' ')`
for some `p` in `CAMERA_PREFIXES`. -/
def cameraScan (t : List Char) : Bool :=
  CAMERA_PREFIXES.any fun p =>
    t == p || (p ++ ['_']).isPrefixOf t || (p ++ ['-']).isPrefixOf t ||
      (p ++ ['.']).isPrefixOf t || (p ++ [' ']).isPrefixOf t

/-- `looks_like_camera_prefix` from the source (list level). -/
def cameraPrefixHit (token : List Char) : Bool :=
  cameraScan ((stripBothBy isDotUnderscore token).map pyLower)

/-- The string `'0123456789abcdef'` from `looks_like_id_or_hash`. -/
def hexLowerChars : List Char := "0123456789abcdef".data

/-- `all(c in '0123456789abcdef' for c in token.lower())`. -/
def allHexLower (l : List Char) : Bool :=
  (l.map pyLower).all fun c => hexLowerChars.contains c

/-- `looks_like_id_or_hash` from the source (list level): a token is
hash/ID-like if it has length ≥ 32 and is purely lower-hex after
lowercasing, or if it has a letter, at least three times as many digits as
letters, and length > 10. -/
def idOrHashHit (token : List Char) : Bool :=
  if 32 ≤ token.length ∧ allHexLower token = true then true
  else if 0 < token.countP (fun c => pyIsAlpha c = true) ∧
      3 * token.countP (fun c => pyIsAlpha c = true) ≤
        token.countP (fun c => pyIsDigit c = true) ∧
      10 < token.length then true
  else false

/-! ### `RE_NUMERIC_DATE_TAIL`

`^(.*?)(?:[_\-\.\s]?(?:(?:20\d{2}[-._]?\d{2}[-._]?\d{2})|(?:\d{9,})|(?:_\d{1,4})|(?:\d{5,}))[\w\-\.]*)$`

The lazy group `(.*?)` makes `m.group(1)` the shortest prefix whose
complement (the whole remaining suffix, because of the `$` anchor) matches
the tail pattern.  `tailMatch` below decides whether a suffix matches the
tail pattern; `tailCapture` finds the shortest such split. -/

/-- The optional separator class `[_\-\.\s]` before the tail. -/
def isTailSep (c : Char) : Bool := c = '_' || c = '-' || c = '.' || pyIsSpace c

/-- The date-separator class `[-._]`. -/
def isDateSep (c : Char) : Bool := c = '-' || c = '.' || c = '_'

/-- The trailing-junk class `[\w\-\.]`. -/
def isJunk (c : Char) : Bool := isWordChar c || c = '-' || c = '.'

/-- `[\w\-\.]*$`: every remaining character is junk. -/
def allJunk (l : List Char) : Bool := l.all isJunk

/-- Match `\d{2}` and continue with `k` on the remainder. -/
def twoDigitsThen (k : List Char → Bool) : List Char → Bool
  | a :: b :: rest => pyIsDigit a && pyIsDigit b && k rest
  | _ => false

/-- Match the optional separator `[-._]?` and continue with `k`.  The `?`
is greedy, but since matchability is all that determines `group(1)`, the
two branches are combined with `||`. -/
def dateSepOpt (k : List Char → Bool) (l : List Char) : Bool :=
  (match l with
   | c :: t => isDateSep c && k t
   | [] => false) || k l

/-- `20\d{2}[-._]?\d{2}[-._]?\d{2}` followed by `[\w\-\.]*$`: the literal
`20`, two digits completing the year, then an optional separator, two
digits, an optional separator, and two digits, followed by the junk run. -/
def dateTailJunk : List Char → Bool
  | '2' :: '0' :: a :: b :: rest =>
      pyIsDigit a && pyIsDigit b &&
        dateSepOpt (twoDigitsThen (dateSepOpt (twoDigitsThen allJunk))) rest
  | _ => false

/-- `\d{n,}` followed by `[\w\-\.]*$`: `n` digits then all junk.  Digits are
junk characters, so the greedy quantifier's extra digits fall into the junk
class and matchability is unchanged. -/
def digitsThenJunk : Nat → List Char → Bool
  | 0, l => allJunk l
  | _ + 1, [] => false
  | k + 1, c :: t => pyIsDigit c && digitsThenJunk k t

/-- `_\d{1,4}` followed by `[\w\-\.]*$`: an underscore, one digit, then all
junk (digits two to four of the quantifier fall into the junk class). -/
def uscoreNumJunk : List Char → Bool
  | '_' :: c :: t => pyIsDigit c && allJunk t
  | _ => false

/-- The tail alternation of `RE_NUMERIC_DATE_TAIL`, in source order:
date, `\d{9,}`, `_\d{1,4}`, `\d{5,}`, each followed by `[\w\-\.]*$`. -/
def tailCore (l : List Char) : Bool :=
  dateTailJunk l || digitsThenJunk 9 l || uscoreNumJunk l || digitsThenJunk 5 l

/-- A suffix matches the whole tail part `[_\-\.\s]?(alternation)[\w\-\.]*$`
(separator-present branch first, as the greedy `?` tries it first; the
disjunction makes the order irrelevant for matchability). -/
def tailMatch (l : List Char) : Bool :=
  (match l with
   | c :: t => isTailSep c && tailCore t
   | [] => false) || tailCore l

/-- Backtracking of the lazy `(.*?)`: try splits with longer and longer
captured prefixes; the first suffix matching the tail wins.  `acc` holds the
reversed captured prefix.  (`tailMatch [] = false`, so the split at the very
end never matches and the empty-list case returns `none`.) -/
def tailCaptureAux : List Char → List Char → Option (List Char)
  | _, [] => none
  | acc, c :: t =>
      if tailMatch (c :: t) then some acc.reverse else tailCaptureAux (c :: acc) t

/-- `RE_NUMERIC_DATE_TAIL.match(token)`: `some (m.group(1))` when the regex
matches, `none` otherwise. -/
def tailCapture (l : List Char) : Option (List Char) := tailCaptureAux [] l

/-- The boundary set of `token.strip('._- ')` in step 4 of
`take_leading_handle_token_preserve`. -/
def boundaryStripChar (c : Char) : Bool := c = '.' || c = '_' || c = '-' || c = ' '

/-- Step 4 of `take_leading_handle_token_preserve`:
```
m = RE_NUMERIC_DATE_TAIL.match(token)
if m:
    cleaned_token = m.group(1)
    if cleaned_token:
        token = cleaned_token.strip('._- ')
``` -/
def tailTrimStage (token : List Char) : List Char :=
  match tailCapture token with
  | some cleaned => if cleaned = [] then token else stripBothBy boundaryStripChar cleaned
  | none => token

/-- Step 5 of `take_leading_handle_token_preserve`, second half: the
camera-prefix and hash/ID blocklists, then acceptance. -/
def validateRest (u : List Char) : Option (List Char) :=
  if cameraPrefixHit u = true then none
  else if idOrHashHit u = true then none
  else some u

/-- Step 5 of `take_leading_handle_token_preserve`: length bounds, the
letter check with its hardcoded `'ツ'` carve-out (whose inner condition
repeats the `has_letter` test), then the blocklists. -/
def validateToken (u : List Char) : Option (List Char) :=
  if u.length < 1 ∨ 40 < u.length then none
  else if hasLetterL u = false ∧ u ≠ ['ツ'] then
    (if u.any pyIsAlpha = false then none else validateRest u)
  else validateRest u

/-- The hard separators `[\(\[#]` of step 3. -/
def isHardSep (c : Char) : Bool := c = '(' || c = '[' || c = '#'

/-- The allowed start characters of step 1:
`stem[i].isalpha() or stem[i].isdigit() or stem[i] in {'@', '_', '.'}`. -/
def isAllowedStart (c : Char) : Bool :=
  pyIsAlpha c || pyIsDigit c || c = '@' || c = '_' || c = '.'

/-- Step 2: `if stem.startswith('@'): stem = stem[1:]`. -/
def dropLeadingAt (l : List Char) : List Char :=
  match l with
  | c :: r => if c = '@' then r else c :: r
  | [] => []

/-- `take_leading_handle_token_preserve` from the source (list level):
skip decoration, drop a leading `@`, isolate up to the first hard
separator, whitespace-strip, trim the numeric/date tail, validate. -/
def takeLeadingL (stem : List Char) : Option (List Char) :=
  let s1 := stem.dropWhile fun c => !isAllowedStart c
  if s1 = [] then none
  else
    validateToken (tailTrimStage (pyStripWs
      ((dropLeadingAt s1).takeWhile fun c => !isHardSep c)))

/-- `RE_AT_ANY.search(stem)` with `m.group(1)`: the pattern
`@([\w._]{3,30})` at the leftmost position where it matches; the greedy
quantifier takes at most 30 characters of the class run after the `@`. -/
def atAnySearchL : List Char → Option (List Char)
  | [] => none
  | c :: t =>
      if c = '@' then
        (if 3 ≤ ((t.takeWhile isWordDot).take 30).length
         then some ((t.takeWhile isWordDot).take 30) else atAnySearchL t)
      else atAnySearchL t

/-- The lookahead noise class `[\s\-\._\(\)\[\]\#]` of `RE_TRAILING`. -/
def isNoiseChar (c : Char) : Bool :=
  pyIsSpace c || c = '-' || c = '.' || c = '_' ||
    c = '(' || c = ')' || c = '[' || c = ']' || c = '#'

/-- `\d{6,}$`: the whole remainder is digits, at least six of them. -/
def longDigitsEnd (l : List Char) : Bool :=
  decide (6 ≤ l.length) && l.all pyIsDigit

/-- `[]` test used to anchor the lookahead's date alternative at `$`. -/
def atEnd : List Char → Bool
  | [] => true
  | _ => false

/-- `\d{4}[-._]?\d{2}[-._]?\d{2}$` (the date alternative of `RE_TRAILING`'s
lookahead, consuming the remainder exactly). -/
def dateLookTail (l : List Char) : Bool :=
  twoDigitsThen (twoDigitsThen (dateSepOpt (twoDigitsThen (dateSepOpt
    (twoDigitsThen atEnd))))) l

/-- The lookahead body `[\s\-\._\(\)\[\]\#]*(?:\d{6,}|\d{4}[-._]?\d{2}[-._]?\d{2})?$`
of `RE_TRAILING`: skip noise characters, then optionally one of the two
digit/date alternatives, then the end of the string.  Both the noise run and
the alternative may be empty, so the lookahead holds trivially at the end of
the string. -/
def trailingLookahead : List Char → Bool
  | [] => true
  | c :: t => longDigitsEnd (c :: t) || dateLookTail (c :: t) ||
      (isNoiseChar c && trailingLookahead t)

/-- Backtracking of the greedy `{3,30}` of `RE_TRAILING`: try token lengths
from `k` down to 3, returning the first length whose remainder satisfies the
lookahead. -/
def tryLens : Nat → List Char → Option (List Char)
  | 0, _ => none
  | k + 1, l =>
      if k + 1 < 3 then none
      else if trailingLookahead (l.drop (k + 1)) then some (l.take (k + 1))
      else tryLens k l

/-- One attempt of `RE_TRAILING` at a fixed position: the greedy class run
(capped at 30), backtracked until the lookahead holds. -/
def trailingSearchAt (l : List Char) : Option (List Char) :=
  tryLens ((l.takeWhile isWordDot).take 30).length l

/-- `RE_TRAILING.search(stem)` with `m.group(1)`: scan the start positions
left to right.  (At the end-of-string position the `{3,30}` quantifier can
never match, so the empty-list case returns `none`.) -/
def trailingSearchL : List Char → Option (List Char)
  | [] => none
  | c :: t =>
      match trailingSearchAt (c :: t) with
      | some r => some r
      | none => trailingSearchL t

/-- The at-symbol fallback of `infer_handle`: an `RE_AT_ANY` match validated
with `has_letter` and `not looks_like_camera_prefix` only.  In the source an
invalid candidate falls through to the next fallback; here that is expressed
by returning `none`, which `fallbackPhase` treats as fall-through. -/
def at_fallback (l : List Char) : Option (List Char) :=
  match atAnySearchL l with
  | some candidate =>
      if hasLetterL candidate && !cameraPrefixHit candidate then some candidate else none
  | none => none

/-- The trailing-token fallback of `infer_handle`: an `RE_TRAILING` match
validated with `has_letter` and `not looks_like_camera_prefix`. -/
def trailing_fallback (l : List Char) : Option (List Char) :=
  match trailingSearchL l with
  | some candidate =>
      if hasLetterL candidate && !cameraPrefixHit candidate then some candidate else none
  | none => none

/-- The fallback section of `infer_handle`: the at-symbol resolver first,
then (only when `allow_trailing` is set) the trailing-token resolver. -/
def fallbackPhase (l : List Char) (allow_trailing : Bool) : Option (List Char) :=
  match at_fallback l with
  | some c => some c
  | none => if allow_trailing then trailing_fallback l else none

/-- `infer_handle` from the source (list level).  `if token:` in Python is a
truthiness test, so both `None` and an empty token fall through to the
strict-mode check and the fallbacks. -/
def inferHandleL (l : List Char) (strict_start allow_trailing : Bool) : Option (List Char) :=
  match takeLeadingL l with
  | some t =>
      if t = [] then (if strict_start then none else fallbackPhase l allow_trailing)
      else some t
  | none => if strict_start then none else fallbackPhase l allow_trailing

/-- `has_letter` from the source. -/
def has_letter (s : String) : Bool := hasLetterL s.data

/-- `looks_like_camera_prefix` from the source (string level). -/
def looks_like_camera_hit (token : String) : Bool := cameraPrefixHit token.data

/-- `looks_like_id_or_hash` from the source (string level). -/
def looks_like_id_or_hash (token : String) : Bool := idOrHashHit token.data

/-- `take_leading_handle_token_preserve` from the source (string level). -/
def take_leading_handle_token_preserve (stem : String) : Option String :=
  (takeLeadingL stem.data).map String.mk

/-- `infer_handle` from the source (string level). -/
def infer_handle (stem : String) (strict_start allow_trailing : Bool) : Option String :=
  (inferHandleL stem.data strict_start allow_trailing).map String.mk

-- Sanity checks against the source's documented scenarios.
example : infer_handle "johnsmith_20230815_123456789" false true = some "johnsmith" := by decide
example : infer_handle "IMG_2048" false true = none := by decide
example : infer_handle "@cool.guy99 (1)" false true = some "cool.guy99" := by decide
example : infer_handle "" false true = none := by decide
example : infer_handle "rh-ab_0058" false true = some "rh-ab" := by decide
-- Separated date tails are matched by the date alternative of the trimmer.
example : tailCapture "abc2023-08-15".data = some "abc".data := by decide
example : infer_handle "handle-2023-08-15" true false = some "handle" := by decide
example : infer_handle "abc 2023.08.15" true false = some "abc" := by decide

-- Concrete computations behind the claims (checked while developing).
example : infer_handle "randomname_8281992017382" true true = some "randomname" := by decide
example : infer_handle "__zzz___oo0_4821" false false = some "zzz___oo0" := by decide
example : infer_handle "@-abc" true true = some "-abc" := by decide
example : infer_handle "-abc" true true = some "abc" := by decide
example : tailTrimStage "_.12345".data = [] := by decide
example : infer_handle (String.mk (List.replicate 41 'a')) false true
    = some (String.mk (List.replicate 30 'a')) := by decide
example : at_fallback (List.replicate 41 'a') = none := by decide
example : take_leading_handle_token_preserve (String.mk (List.replicate 41 'a')) = none := by decide

/-! ### Generic lemmas about the strip helpers -/

theorem mem_stripLeadingBy {f : Char → Bool} {l : List Char} {x : Char}
    (h : x ∈ stripLeadingBy f l) : x ∈ l :=
  (List.dropWhile_sublist _).subset h

theorem mem_stripTrailingBy {f : Char → Bool} {l : List Char} {x : Char}
    (h : x ∈ stripTrailingBy f l) : x ∈ l := by
  unfold stripTrailingBy at h
  rw [List.mem_reverse] at h
  exact List.mem_reverse.mp ((List.dropWhile_sublist _).subset h)

theorem mem_stripBothBy {f : Char → Bool} {l : List Char} {x : Char}
    (h : x ∈ stripBothBy f l) : x ∈ l :=
  mem_stripLeadingBy (mem_stripTrailingBy h)

theorem stripBothBy_eq_nil {f : Char → Bool} {l : List Char}
    (h : stripBothBy f l = []) : ∀ x ∈ l, f x = true := by
  unfold stripBothBy stripTrailingBy stripLeadingBy at h
  rw [List.reverse_eq_nil_iff, List.dropWhile_eq_nil_iff] at h
  intro x hx
  rcases List.mem_append.mp
      ((List.takeWhile_append_dropWhile (p := f) (l := l)) ▸ hx) with h1 | h1
  · exact List.mem_takeWhile_imp h1
  · exact h x (List.mem_reverse.mpr h1)

theorem stripTrailingBy_decomp (f : Char → Bool) (l : List Char) :
    ∃ suf, l = stripTrailingBy f l ++ suf ∧ ∀ x ∈ suf, f x = true := by
  refine ⟨(l.reverse.takeWhile f).reverse, ?_, ?_⟩
  · unfold stripTrailingBy
    conv_lhs => rw [← List.reverse_reverse l,
      ← List.takeWhile_append_dropWhile (p := f) (l := l.reverse)]
    rw [List.reverse_append]
  · intro x hx
    exact List.mem_takeWhile_imp (List.mem_reverse.mp hx)

/-! ### Lemmas about the tail trimmer -/

theorem tailCaptureAux_spec : ∀ (l acc c : List Char),
    tailCaptureAux acc l = some c → ∃ r, c ++ r = acc.reverse ++ l ∧ tailMatch r = true := by
  intro l
  induction l with
  | nil => intro acc c h; simp [tailCaptureAux] at h
  | cons x t ih =>
    intro acc c h
    unfold tailCaptureAux at h
    split at h
    · rename_i hm
      injection h with h'
      subst h'
      exact ⟨x :: t, rfl, hm⟩
    · obtain ⟨r, hr, hmr⟩ := ih (x :: acc) c h
      refine ⟨r, ?_, hmr⟩
      rw [hr, List.reverse_cons, List.append_assoc]
      rfl

theorem tailCapture_decomp {l c : List Char} (h : tailCapture l = some c) :
    ∃ r, c ++ r = l ∧ tailMatch r = true := by
  simpa using tailCaptureAux_spec l [] c h

theorem mem_tailTrimStage {t : List Char} {x : Char}
    (h : x ∈ tailTrimStage t) : x ∈ t := by
  unfold tailTrimStage at h
  split at h
  · rename_i c hc
    split at h
    · exact h
    · obtain ⟨r, hr, -⟩ := tailCapture_decomp hc
      exact hr ▸ List.mem_append_left r (mem_stripBothBy h)
  · exact h

/-! ### Inversion lemmas for the validator and tokenizer -/

theorem validateRest_inv {u t : List Char} (h : validateRest u = some t) :
    t = u ∧ cameraPrefixHit u = false ∧ idOrHashHit u = false := by
  unfold validateRest at h
  split at h
  · exact absurd h (by simp)
  · split at h
    · exact absurd h (by simp)
    · rename_i h1 h2
      exact ⟨(Option.some.inj h).symm, by simpa using h1, by simpa using h2⟩

theorem validateToken_inv {u t : List Char} (h : validateToken u = some t) :
    t = u ∧ 1 ≤ u.length ∧ u.length ≤ 40 ∧ (hasLetterL u = true ∨ u = ['ツ']) ∧
      cameraPrefixHit u = false ∧ idOrHashHit u = false := by
  unfold validateToken at h
  split at h
  · exact absurd h (by simp)
  · rename_i hlen
    have hlen' : 1 ≤ u.length ∧ u.length ≤ 40 := by omega
    split at h
    · rename_i hcond
      split at h
      · exact absurd h (by simp)
      · rename_i hany
        exact absurd hcond.1 (by simpa [hasLetterL] using hany)
    · rename_i hcond
      have hlet : hasLetterL u = true ∨ u = ['ツ'] := by
        by_cases he : u = ['ツ']
        · exact Or.inr he
        · rcases Bool.eq_false_or_eq_true (hasLetterL u) with ht | hf
          · exact Or.inl ht
          · exact absurd ⟨hf, he⟩ hcond
      obtain ⟨ht, h2, h3⟩ := validateRest_inv h
      exact ⟨ht, hlen'.1, hlen'.2, hlet, h2, h3⟩

theorem validateToken_self {t : List Char} (hlen1 : 1 ≤ t.length) (hlen2 : t.length ≤ 40)
    (hlet : hasLetterL t = true ∨ t = ['ツ']) (hcam : cameraPrefixHit t = false)
    (hid : idOrHashHit t = false) : validateToken t = some t := by
  unfold validateToken validateRest
  rw [if_neg (by omega)]
  rcases hlet with hl | rfl
  · rw [if_neg (by simp [hl]), if_neg (by simp [hcam]), if_neg (by simp [hid])]
  · rw [if_neg (by simp), if_neg (by simp [hcam]), if_neg (by simp [hid])]

theorem takeLeadingL_some {l t : List Char} (h : takeLeadingL l = some t) :
    validateToken t = some t ∧ (∀ x ∈ t, isHardSep x = false) := by
  simp only [takeLeadingL] at h
  split at h
  · exact absurd h (by simp)
  · have ht := (validateToken_inv h).1
    subst ht
    refine ⟨h, ?_⟩
    intro x hx
    have hx2 := List.mem_takeWhile_imp (mem_stripBothBy (mem_tailTrimStage hx))
    simpa using hx2

/-! ### Inversion lemmas for the fallback resolvers -/

theorem wordDot_not_hardSep {x : Char} (h : isWordDot x = true) : isHardSep x = false := by
  cases hx : isHardSep x
  · rfl
  · exfalso
    have : (x = '(' ∨ x = '[') ∨ x = '#' := by simpa [isHardSep] using hx
    rcases this with (rfl | rfl) | rfl <;> exact absurd h (by decide)

theorem atAnySearchL_inv : ∀ {l c : List Char}, atAnySearchL l = some c →
    3 ≤ c.length ∧ c.length ≤ 30 ∧ ∀ x ∈ c, isWordDot x = true := by
  intro l
  induction l with
  | nil => intro c h; simp [atAnySearchL] at h
  | cons x t ih =>
    intro c h
    unfold atAnySearchL at h
    split at h
    · split at h
      · rename_i hrun
        injection h with h'
        subst h'
        refine ⟨hrun, List.length_take_le 30 _, ?_⟩
        intro y hy
        exact List.mem_takeWhile_imp (List.take_subset _ _ hy)
      · exact ih h
    · exact ih h

theorem tryLens_inv : ∀ (k : Nat) {l c : List Char}, tryLens k l = some c →
    ∃ j, 3 ≤ j ∧ j ≤ k ∧ c = l.take j ∧ trailingLookahead (l.drop j) = true := by
  intro k
  induction k with
  | zero => intro l c h; simp [tryLens] at h
  | succ k ih =>
    intro l c h
    unfold tryLens at h
    split at h
    · exact absurd h (by simp)
    · rename_i hge
      split at h
      · rename_i hla
        injection h with h'
        exact ⟨k + 1, by omega, Nat.le_refl _, h'.symm, hla⟩
      · obtain ⟨j, h3, hk, hc, hla⟩ := ih h
        exact ⟨j, h3, by omega, hc, hla⟩

theorem trailingSearchAt_inv {l c : List Char} (h : trailingSearchAt l = some c) :
    3 ≤ c.length ∧ c.length ≤ 30 ∧ (∀ x ∈ c, isWordDot x = true) ∧
      ∃ post, c ++ post = l ∧ trailingLookahead post = true := by
  unfold trailingSearchAt at h
  obtain ⟨j, h3, hk, hc, hla⟩ := tryLens_inv _ h
  rw [List.length_take] at hk
  have hj30 : j ≤ 30 := le_trans hk (Nat.min_le_left ..)
  have hjtw : j ≤ (l.takeWhile isWordDot).length := le_trans hk (Nat.min_le_right ..)
  have hjl : j ≤ l.length := le_trans hjtw (List.Sublist.length_le (List.takeWhile_sublist _))
  have hclen : c.length = j := by
    rw [hc, List.length_take]
    omega
  have htake : l.take j = (l.takeWhile isWordDot).take j := by
    conv_lhs => rw [← List.takeWhile_append_dropWhile (p := isWordDot) (l := l)]
    rw [List.take_append_eq_append_take, Nat.sub_eq_zero_of_le hjtw]
    simp
  refine ⟨by omega, by omega, ?_, l.drop j, ?_, ?_⟩
  · intro y hy
    rw [hc, htake] at hy
    exact List.mem_takeWhile_imp (List.take_subset _ _ hy)
  · rw [hc]
    exact List.take_append_drop ..
  · exact hla

theorem trailingSearchL_inv : ∀ {l c : List Char}, trailingSearchL l = some c →
    3 ≤ c.length ∧ c.length ≤ 30 ∧ (∀ x ∈ c, isWordDot x = true) ∧
      ∃ pre post, l = pre ++ (c ++ post) ∧ trailingLookahead post = true := by
  intro l
  induction l with
  | nil => intro c h; simp [trailingSearchL] at h
  | cons x t ih =>
    intro c h
    unfold trailingSearchL at h
    split at h
    · rename_i r hr
      injection h with h'
      subst h'
      obtain ⟨h3, h30, hmem, post, hpost, hla⟩ := trailingSearchAt_inv hr
      exact ⟨h3, h30, hmem, [], post, by rw [List.nil_append, hpost], hla⟩
    · obtain ⟨h3, h30, hmem, pre, post, hdec, hla⟩ := ih h
      exact ⟨h3, h30, hmem, x :: pre, post, by rw [hdec]; rfl, hla⟩

theorem at_fallback_inv {l c : List Char} (h : at_fallback l = some c) :
    atAnySearchL l = some c ∧ hasLetterL c = true ∧ cameraPrefixHit c = false := by
  unfold at_fallback at h
  split at h
  · rename_i r hr
    split at h
    · rename_i hv
      injection h with h'
      subst h'
      simp only [Bool.and_eq_true, Bool.not_eq_true'] at hv
      exact ⟨hr, hv.1, hv.2⟩
    · exact absurd h (by simp)
  · exact absurd h (by simp)

theorem trailing_fallback_inv {l c : List Char} (h : trailing_fallback l = some c) :
    trailingSearchL l = some c ∧ hasLetterL c = true ∧ cameraPrefixHit c = false := by
  unfold trailing_fallback at h
  split at h
  · rename_i r hr
    split at h
    · rename_i hv
      injection h with h'
      subst h'
      simp only [Bool.and_eq_true, Bool.not_eq_true'] at hv
      exact ⟨hr, hv.1, hv.2⟩
    · exact absurd h (by simp)
  · exact absurd h (by simp)

theorem fallbackPhase_inv {l c : List Char} {allow : Bool}
    (h : fallbackPhase l allow = some c) :
    at_fallback l = some c ∨ (allow = true ∧ trailing_fallback l = some c) := by
  unfold fallbackPhase at h
  split at h
  · rename_i r hr
    injection h with h'
    subst h'
    exact Or.inl hr
  · split at h
    · exact Or.inr ⟨by assumption, h⟩
    · exact absurd h (by simp)

theorem inferHandleL_inv {l t : List Char} {ss allow : Bool}
    (h : inferHandleL l ss allow = some t) :
    (takeLeadingL l = some t ∧ t ≠ []) ∨ (ss = false ∧ fallbackPhase l allow = some t) := by
  unfold inferHandleL at h
  split at h
  · rename_i t0 ht0
    split at h
    · split at h
      · exact absurd h (by simp)
      · exact Or.inr ⟨by simpa using (by assumption : ¬ss = true), h⟩
    · rename_i hne
      injection h with h'
      subst h'
      exact Or.inl ⟨ht0, hne⟩
  · split at h
    · exact absurd h (by simp)
    · exact Or.inr ⟨by simpa using (by assumption : ¬ss = true), h⟩

/-! ### Facts about every accepted handle -/

theorem inferHandleL_facts {l t : List Char} {ss allow : Bool}
    (h : inferHandleL l ss allow = some t) :
    1 ≤ t.length ∧ t.length ≤ 40 ∧ (hasLetterL t = true ∨ t = ['ツ']) ∧
      cameraPrefixHit t = false ∧ ∀ x ∈ t, isHardSep x = false := by
  rcases inferHandleL_inv h with ⟨hp, -⟩ | ⟨-, hf⟩
  · obtain ⟨hval, hsep⟩ := takeLeadingL_some hp
    obtain ⟨-, h1, h2, h3, h4, -⟩ := validateToken_inv hval
    exact ⟨h1, h2, h3, h4, hsep⟩
  · rcases fallbackPhase_inv hf with hat | ⟨-, htr⟩
    · obtain ⟨hs, hlet, hcam⟩ := at_fallback_inv hat
      obtain ⟨h3, h30, hmem⟩ := atAnySearchL_inv hs
      exact ⟨by omega, by omega, Or.inl hlet, hcam,
        fun x hx => wordDot_not_hardSep (hmem x hx)⟩
    · obtain ⟨hs, hlet, hcam⟩ := trailing_fallback_inv htr
      obtain ⟨h3, h30, hmem, -⟩ := trailingSearchL_inv hs
      exact ⟨by omega, by omega, Or.inl hlet, hcam,
        fun x hx => wordDot_not_hardSep (hmem x hx)⟩

/-- Re-running the tokenizer on a token that begins with an allowed
non-`@` character, contains no hard separator, and is a fixpoint of the
whitespace strip and of the tail trimmer reproduces exactly the validation
of that token. -/
theorem takeLeadingL_fix {c : Char} {r : List Char}
    (hc : (pyIsAlpha c || pyIsDigit c || c = '_' || c = '.') = true)
    (hsep : ∀ x ∈ c :: r, isHardSep x = false)
    (hstrip : pyStripWs (c :: r) = c :: r)
    (htrim : tailTrimStage (c :: r) = c :: r)
    (hval : validateToken (c :: r) = some (c :: r)) :
    takeLeadingL (c :: r) = some (c :: r) := by
  have hstart : isAllowedStart c = true := by
    simp only [isAllowedStart]
    simp only [Bool.or_eq_true] at hc ⊢
    tauto
  have hat : ¬(c = '@') := by
    rintro rfl
    exact absurd hc (by decide)
  have hdw : (c :: r).dropWhile (fun x => !isAllowedStart x) = c :: r := by
    rw [List.dropWhile_cons]
    simp [hstart]
  have hdla : dropLeadingAt (c :: r) = c :: r := by simp [dropLeadingAt, hat]
  have htw : (c :: r).takeWhile (fun x => !isHardSep x) = c :: r := by
    rw [List.takeWhile_eq_self_iff]
    intro x hx
    simp [hsep x hx]
  simp only [takeLeadingL, hdw, hdla, htw, hstrip, htrim]
  rw [if_neg (by simp)]
  exact hval

/-! ### Claim theorems -/

/-- C1, counterexample: on the stem `"randomname_8281992017382"` the claim
"`infer_handle` returns no handle for every flag setting" is false — with
`strict_start` and `allow_trailing` both set the function returns the handle
`"randomname"`. -/
theorem C1_counterexample :
    infer_handle "randomname_8281992017382" true true = some "randomname" := by decide

/-- C1, amended: for the stem `"randomname_8281992017382"`, `infer_handle`
returns the handle `"randomname"` for every setting of the `strict_start`
and `allow_trailing` flags: the numeric tail `_8281992017382` is trimmed by
the tail trimmer before validation, so the ID/hash-like rule never sees the
digits and the remaining token `"randomname"` is accepted. -/
theorem C1_amended_theorem : ∀ (ss at_ : Bool),
    infer_handle "randomname_8281992017382" ss at_ = some "randomname" := by
  intro ss at_
  cases ss <;> cases at_ <;> decide

/-- C2: for the stem `"__zzz___oo0_4821"`, `infer_handle` returns
`some "zzz___oo0"` for every setting of the mode flags — the numeric tail
`_4821` is trimmed, but the subsequent `strip('._- ')` also removes the
leading underscores, contradicting the claim (and the module docstring,
which promises that `"__zzz___oo0"` stays `"__zzz___oo0"`). -/
theorem C2_evaluation : ∀ (ss at_ : Bool),
    infer_handle "__zzz___oo0_4821" ss at_ = some "zzz___oo0" := by
  intro ss at_
  cases ss <;> cases at_ <;> decide

/-- C3: `infer_handle` is total — for every stem and every flag setting it
returns either a (non-empty) handle string or `none`; absence is the only
failure signal.  (Totality itself is witnessed by the embedding being a
total computable function.) -/
theorem C3_total : ∀ (stem : String) (ss at_ : Bool),
    infer_handle stem ss at_ = none ∨
      ∃ h, infer_handle stem ss at_ = some h ∧ h ≠ "" := by
  intro stem ss at_
  cases e : infer_handle stem ss at_ with
  | none => exact Or.inl rfl
  | some h =>
    refine Or.inr ⟨h, rfl, ?_⟩
    unfold infer_handle at e
    obtain ⟨t, ht, hmk⟩ := Option.map_eq_some'.mp e
    obtain ⟨h1, -⟩ := inferHandleL_facts ht
    intro hemp
    rw [hemp] at hmk
    have hnil : t = [] := by simpa using congrArg String.data hmk
    rw [hnil] at h1
    exact absurd h1 (by simp)

/-- C4, counterexample: the stem `"@-abc"` yields the accepted handle
`"-abc"`, which carries no numeric tail, yet re-running `infer_handle` on it
with the same flags returns `"abc"`, not `"-abc"` — the leading `'-'` is
skipped as decoration on the second run. -/
theorem C4_counterexample :
    infer_handle "@-abc" true true = some "-abc" ∧
      tailTrimStage "-abc".data = "-abc".data ∧
      infer_handle "-abc" true true = some "abc" ∧ ("abc" : String) ≠ "-abc" := by decide

/-- C4, amended: idempotence holds for every accepted handle that carries no
numeric tail (the tail trimmer leaves it unchanged), starts with a letter,
digit, underscore or dot, is a fixpoint of the whitespace strip, and is not
hash/ID-like: re-running `infer_handle` on the handle alone with the same
flags returns that same handle. -/
theorem C4_amended_theorem : ∀ (stem : String) (ss at_ : Bool) (h : String),
    infer_handle stem ss at_ = some h →
    tailTrimStage h.data = h.data →
    (∃ c r, h.data = c :: r ∧ (pyIsAlpha c || pyIsDigit c || c = '_' || c = '.') = true) →
    pyStripWs h.data = h.data →
    looks_like_id_or_hash h = false →
    infer_handle h ss at_ = some h := by
  intro stem ss at_ h e htrim hhead hstrip hid
  unfold infer_handle at e ⊢
  obtain ⟨t, ht, hmk⟩ := Option.map_eq_some'.mp e
  have hdata : h.data = t := by rw [← hmk]
  obtain ⟨c, r, hcr, hc⟩ := hhead
  have htcr : t = c :: r := hdata.symm.trans hcr
  subst htcr
  obtain ⟨h1, h2, h3, h4, h5⟩ := inferHandleL_facts ht
  rw [hcr] at htrim hstrip
  unfold looks_like_id_or_hash at hid
  rw [hcr] at hid
  have hval : validateToken (c :: r) = some (c :: r) :=
    validateToken_self h1 h2 h3 h4 hid
  have hTL : takeLeadingL (c :: r) = some (c :: r) :=
    takeLeadingL_fix hc h5 hstrip htrim hval
  have hfinal : inferHandleL (c :: r) ss at_ = some (c :: r) := by
    unfold inferHandleL
    rw [hTL]
    show (if c :: r = [] then (if ss then none else fallbackPhase (c :: r) at_)
      else some (c :: r)) = some (c :: r)
    rw [if_neg (List.cons_ne_nil c r)]
  rw [hcr, hfinal]
  simp only [Option.map_some']
  rw [hmk]

/-- C5, counterexample: on the non-empty candidate token `"_.12345"` the
tail-trimmer stage returns the empty token — the guard checks the captured
prefix before the boundary-character strip, not after it. -/
theorem C5_counterexample :
    "_.12345".data ≠ [] ∧ tailTrimStage "_.12345".data = [] := by decide

/-- C5, amended: the tail-trimmer stage returns the empty token on a
non-empty candidate only when the captured pre-strip prefix is non-empty and
consists entirely of the boundary characters `_`, `.`, `-`, space; the
guard prevents only an empty regex capture from replacing the token. -/
theorem C5_amended_theorem : ∀ (token : List Char), token ≠ [] →
    tailTrimStage token = [] →
    ∃ cleaned, tailCapture token = some cleaned ∧ cleaned ≠ [] ∧
      cleaned.all boundaryStripChar = true := by
  intro token hne h
  unfold tailTrimStage at h
  split at h
  · rename_i cl hc
    split at h
    · exact absurd h hne
    · rename_i hcne
      refine ⟨cl, hc, hcne, ?_⟩
      rw [List.all_eq_true]
      exact stripBothBy_eq_nil h
  · exact absurd h hne

/-- C6, counterexample: on the stem of 41 letters `a` (with `strict_start`
off and `allow_trailing` on) the primary pipeline and the at-symbol fallback
fail, and the trailing-token fallback returns a 30-letter handle although
the stem contains no digit at all — so no long digit run or date-like run
follows the handle, contradicting the claim. -/
theorem C6_counterexample :
    take_leading_handle_token_preserve (String.mk (List.replicate 41 'a')) = none ∧
      at_fallback (List.replicate 41 'a') = none ∧
      infer_handle (String.mk (List.replicate 41 'a')) false true
        = some (String.mk (List.replicate 30 'a')) ∧
      (List.replicate 41 'a').all (fun c => !pyIsDigit c) = true := by decide

/-- C6, amended: when the primary pipeline and the at-symbol fallback fail
(`strict_start` off, `allow_trailing` on), any handle the trailing-token
fallback returns is followed in the stem by separator/bracket noise and then
an *optional* long digit run or date-like run reaching the end of the
string — the digit/date run may be absent, since it is optional in the
lookahead of `RE_TRAILING`. -/
theorem C6_amended_theorem : ∀ (stem h : String),
    take_leading_handle_token_preserve stem = none →
    at_fallback stem.data = none →
    infer_handle stem false true = some h →
    ∃ pre post, stem.data = pre ++ (h.data ++ post) ∧ trailingLookahead post = true := by
  intro stem h hTL hAt e
  unfold infer_handle at e
  obtain ⟨t, ht, hmk⟩ := Option.map_eq_some'.mp e
  have hTL' : takeLeadingL stem.data = none :=
    Option.map_eq_none'.mp hTL
  rcases inferHandleL_inv ht with ⟨hp, -⟩ | ⟨-, hf⟩
  · rw [hTL'] at hp
    exact absurd hp (by simp)
  · rcases fallbackPhase_inv hf with hat | ⟨-, htr⟩
    · rw [hAt] at hat
      exact absurd hat (by simp)
    · obtain ⟨hs, -, -⟩ := trailing_fallback_inv htr
      obtain ⟨-, -, -, pre, post, hdec, hla⟩ := trailingSearchL_inv hs
      refine ⟨pre, post, ?_, hla⟩
      rw [← hmk]
      exact hdec

/-- C9: every handle returned by `infer_handle`, by the primary pipeline or
by either fallback, has between 1 and 40 Unicode characters inclusive. -/
theorem C9_length_bounds : ∀ (stem : String) (ss at_ : Bool) (h : String),
    infer_handle stem ss at_ = some h → 1 ≤ h.length ∧ h.length ≤ 40 := by
  intro stem ss at_ h e
  unfold infer_handle at e
  obtain ⟨t, ht, hmk⟩ := Option.map_eq_some'.mp e
  obtain ⟨h1, h2, -⟩ := inferHandleL_facts ht
  rw [← hmk]
  exact ⟨h1, h2⟩

/-- C10: disabling strict mode never changes or loses a start-of-name
result — a handle found under `strict_start = true` is always found by the
primary pipeline, which runs identically (and first) when
`strict_start = false`, for any value of `allow_trailing`. -/
theorem C10_strict_relax : ∀ (stem : String) (b b' : Bool) (h : String),
    infer_handle stem true b = some h → infer_handle stem false b' = some h := by
  intro stem b b' h e
  unfold infer_handle at e ⊢
  obtain ⟨t, ht, hmk⟩ := Option.map_eq_some'.mp e
  have hp : takeLeadingL stem.data = some t ∧ t ≠ [] := by
    rcases inferHandleL_inv ht with hp | ⟨hss, -⟩
    · exact hp
    · exact absurd hss (by simp)
  have : inferHandleL stem.data false b' = some t := by
    unfold inferHandleL
    rw [hp.1]
    simp [hp.2]
  rw [this]
  simpa using hmk

/-! ### C7: hexadecimal strings of length at least 32 -/

/-- The hexadecimal digits, case-insensitively. -/
def hexDigitsCI : List Char := "0123456789abcdefABCDEF".data

theorem hexCI_lower : ∀ y ∈ hexDigitsCI, hexLowerChars.contains (pyLower y) = true := by decide

/-- C7: every string of length ≥ 32 all of whose characters are hexadecimal
digits (case-insensitively) is rejected by the Validator's hash/ID rule, and
the primary pipeline never returns such a token as a handle. -/
theorem C7_hex_reject : ∀ (token : String), 32 ≤ token.length →
    (∀ c ∈ token.data, c ∈ hexDigitsCI) →
    looks_like_id_or_hash token = true ∧
      ∀ stem, take_leading_handle_token_preserve stem ≠ some token := by
  intro token hlen hhex
  have hall : allHexLower token.data = true := by
    unfold allHexLower
    rw [List.all_eq_true]
    intro x hx
    rw [List.mem_map] at hx
    obtain ⟨y, hy, rfl⟩ := hx
    exact hexCI_lower y (hhex y hy)
  have hhit : idOrHashHit token.data = true := by
    unfold idOrHashHit
    rw [if_pos ⟨hlen, hall⟩]
  refine ⟨hhit, ?_⟩
  intro stem heq
  obtain ⟨t, ht, hmk⟩ := Option.map_eq_some'.mp heq
  obtain ⟨hval, -⟩ := takeLeadingL_some ht
  obtain ⟨-, -, -, -, -, hid⟩ := validateToken_inv hval
  have hfalse : idOrHashHit token.data = false := by rw [← hmk]; exact hid
  rw [hfalse] at hhit
  exact absurd hhit (by simp)

/-! ### C8: camera-prefix rejection -/

theorem isPrefixOf_exists : ∀ (a b : List Char), a.isPrefixOf b = true ↔ ∃ r, a ++ r = b := by
  intro a
  induction a with
  | nil => intro b; simp [List.isPrefixOf]
  | cons x as ih =>
    intro b
    cases b with
    | nil => simp [List.isPrefixOf]
    | cons y bs =>
      simp only [List.isPrefixOf, List.cons_append, Bool.and_eq_true, beq_iff_eq]
      constructor
      · rintro ⟨rfl, h⟩
        obtain ⟨r, hr⟩ := (ih bs).mp h
        exact ⟨r, by rw [hr]⟩
      · rintro ⟨r, hr⟩
        injection hr with h1 h2
        exact ⟨h1, (ih bs).mpr ⟨r, h2⟩⟩

theorem append_split : ∀ (a c b d : List Char), a ++ b = c ++ d → a.length ≤ c.length →
    ∃ m, c = a ++ m ∧ b = m ++ d := by
  intro a
  induction a with
  | nil =>
    intro c b d h _
    exact ⟨c, by simp, h⟩
  | cons x as ih =>
    intro c b d h hl
    cases c with
    | nil => simp at hl
    | cons y cs =>
      simp only [List.cons_append] at h
      injection h with h1 h2
      subst h1
      obtain ⟨m, hm1, hm2⟩ := ih cs b d h2 (by simpa using hl)
      exact ⟨m, by rw [hm1]; rfl, hm2⟩

theorem camera_chars_not_dotUnderscore :
    ∀ p ∈ CAMERA_PREFIXES, ∀ x ∈ p, isDotUnderscore x = false := by decide

theorem dotUnderscore_lower : ∀ (x : Char), isDotUnderscore x = true → pyLower x = x := by
  intro x hx
  have : x = '.' ∨ x = '_' := by simpa [isDotUnderscore] using hx
  rcases this with rfl | rfl <;> decide

/-- Lowering commutes with the leading/trailing `'._'` strips: the lowered
leading-stripped token is the lowered both-stripped token followed by a run
of `'.'`/`'_'` characters. -/
theorem strip_lower_decomp (l : List Char) :
    ∃ sufL, (stripLeadingBy isDotUnderscore l).map pyLower =
      (stripBothBy isDotUnderscore l).map pyLower ++ sufL ∧
      ∀ x ∈ sufL, isDotUnderscore x = true := by
  obtain ⟨suf, hdec, hsuf⟩ := stripTrailingBy_decomp isDotUnderscore (stripLeadingBy isDotUnderscore l)
  refine ⟨suf.map pyLower, ?_, ?_⟩
  · conv_lhs => rw [hdec]
    rw [List.map_append]
    rfl
  · intro x hx
    rw [List.mem_map] at hx
    obtain ⟨y, hy, rfl⟩ := hx
    rw [dotUnderscore_lower y (hsuf y hy)]
    exact hsuf y hy

/-- C8: every token that, case-insensitively and after stripping leading
`_`/`.` characters, equals a camera prefix or starts with a camera prefix
followed immediately by `_`, `-`, `.` or space, is rejected by
`looks_like_camera_prefix`, and the primary pipeline never returns it as a
handle, regardless of any surrounding digits. -/
theorem C8_camera_reject : ∀ (token : String),
    (∃ p ∈ CAMERA_PREFIXES,
      (stripLeadingBy isDotUnderscore token.data).map pyLower = p ∨
      ∃ d ∈ ['_', '-', '.', ' '],
        (p ++ [d]).isPrefixOf ((stripLeadingBy isDotUnderscore token.data).map pyLower) = true) →
    looks_like_camera_hit token = true ∧
      ∀ stem, take_leading_handle_token_preserve stem ≠ some token := by
  rintro token ⟨p, hp, hcase⟩
  obtain ⟨sufL, hmap, hsufL⟩ := strip_lower_decomp token.data
  have hpchars : ∀ x ∈ p, isDotUnderscore x = false := camera_chars_not_dotUnderscore p hp
  have hscan : cameraScan ((stripBothBy isDotUnderscore token.data).map pyLower) = true := by
    rcases hcase with heq | ⟨d, hd, hpf⟩
    · rw [hmap] at heq
      cases hsL : sufL with
      | nil =>
        rw [hsL, List.append_nil] at heq
        exact List.any_eq_true.mpr ⟨p, hp, by simp [heq]⟩
      | cons z zs =>
        exfalso
        rw [hsL] at heq
        have hz1 : z ∈ p := by
          rw [← heq]
          exact List.mem_append_right _ (List.mem_cons_self ..)
        have hz2 : isDotUnderscore z = true := hsufL z (by rw [hsL]; exact List.mem_cons_self ..)
        rw [hpchars z hz1] at hz2
        exact absurd hz2 (by simp)
    · obtain ⟨r0, hr0⟩ := (isPrefixOf_exists _ _).mp hpf
      rw [hmap] at hr0
      by_cases hle : p.length + 1 ≤ ((stripBothBy isDotUnderscore token.data).map pyLower).length
      · obtain ⟨m, hm1, -⟩ := append_split (p ++ [d]) _ r0 sufL hr0
          (by simp only [List.length_append, List.length_map, List.length_cons,
            List.length_nil] at hle ⊢; omega)
        have hpf' : (p ++ [d]).isPrefixOf ((stripBothBy isDotUnderscore token.data).map pyLower)
            = true := (isPrefixOf_exists _ _).mpr ⟨m, hm1.symm⟩
        refine List.any_eq_true.mpr ⟨p, hp, ?_⟩
        have hd' : d = '_' ∨ d = '-' ∨ d = '.' ∨ d = ' ' := by simpa using hd
        rcases hd' with rfl | rfl | rfl | rfl <;> simp [hpf']
      · have h2 : (stripBothBy isDotUnderscore token.data).map pyLower ++ sufL
            = p ++ ([d] ++ r0) := by rw [← hr0]; simp [List.append_assoc]
        obtain ⟨m, hm1, hm2⟩ := append_split _ p sufL ([d] ++ r0) h2
          (by simp only [List.length_map] at hle ⊢; omega)
        cases m with
        | nil =>
          rw [List.append_nil] at hm1
          exact List.any_eq_true.mpr ⟨p, hp, by simp [hm1]⟩
        | cons z zs =>
          exfalso
          have hz1 : z ∈ p := by
            rw [hm1]
            exact List.mem_append_right _ (List.mem_cons_self ..)
          have hz2 : isDotUnderscore z = true := hsufL z (by
            rw [hm2]
            exact List.mem_append_left _ (List.mem_cons_self ..))
          rw [hpchars z hz1] at hz2
          exact absurd hz2 (by simp)
  have hhit : cameraPrefixHit token.data = true := hscan
  refine ⟨hhit, ?_⟩
  intro stem heq
  obtain ⟨t, ht, hmk⟩ := Option.map_eq_some'.mp heq
  obtain ⟨hval, -⟩ := takeLeadingL_some ht
  obtain ⟨-, -, -, -, hcam, -⟩ := validateToken_inv hval
  have hfalse : cameraPrefixHit token.data = false := by rw [← hmk]; exact hcam
  rw [hfalse] at hhit
  exact absurd hhit (by simp)

/-! ### Witnesses -/

/-- Witness for C4: the amended idempotence applied to the handle `"abc"`
inferred from the stem `"abc"`. -/
theorem C4_amended_witness : infer_handle "abc" true true = some "abc" :=
  C4_amended_theorem "abc" true true "abc" (by decide) (by decide)
    ⟨'a', ['b', 'c'], by decide, by decide⟩ (by decide) (by decide)

/-- Witness for C5: the amended statement applied to the token `"_.12345"`. -/
theorem C5_amended_witness : ∃ cleaned, tailCapture "_.12345".data = some cleaned ∧
    cleaned ≠ [] ∧ cleaned.all boundaryStripChar = true :=
  C5_amended_theorem "_.12345".data (by decide) (by decide)

/-- Witness for C6: the amended statement applied to the 41-letter stem. -/
theorem C6_amended_witness : ∃ pre post,
    (String.mk (List.replicate 41 'a')).data
      = pre ++ ((String.mk (List.replicate 30 'a')).data ++ post) ∧
      trailingLookahead post = true :=
  C6_amended_theorem (String.mk (List.replicate 41 'a')) (String.mk (List.replicate 30 'a'))
    (by decide) (by decide) (by decide)

/-- Witness for C7: applied to the 32-character hex string `aaaa…a`. -/
theorem C7_hex_witness : looks_like_id_or_hash (String.mk (List.replicate 32 'a')) = true ∧
    ∀ stem, take_leading_handle_token_preserve stem ≠ some (String.mk (List.replicate 32 'a')) :=
  C7_hex_reject (String.mk (List.replicate 32 'a')) (by decide) (by decide)

/-- Witness for C8: applied to the token `"IMG_2048"`. -/
theorem C8_camera_witness : looks_like_camera_hit "IMG_2048" = true ∧
    ∀ stem, take_leading_handle_token_preserve stem ≠ some "IMG_2048" :=
  C8_camera_reject "IMG_2048" ⟨"img".data, by decide, Or.inr ⟨'_', by decide, by decide⟩⟩

/-- Witness for C9: applied to the documented scenario stem. -/
theorem C9_length_witness :
    1 ≤ ("johnsmith" : String).length ∧ ("johnsmith" : String).length ≤ 40 :=
  C9_length_bounds "johnsmith_20230815_123456789" false true "johnsmith" (by decide)

/-- Witness for C10: applied to the documented scenario stem. -/
theorem C10_strict_witness : infer_handle "@cool.guy99 (1)" false false = some "cool.guy99" :=
  C10_strict_relax "@cool.guy99 (1)" true false "cool.guy99" (by decide)
